import Mathlib

/-!
Verification of the offline analysis pipeline in `staircase_to_stimuli.py`:
staircase-to-PSE aggregation (`pse_last_k_per_block_per_condition`),
PSE-driven stimulus-set construction (`make_stimuli_from_pse`), and
method-of-constant-stimuli response aggregation (`_clean_mocs_df`,
`analyze_mocs`), plus the logistic psychometric models.

Conventions of the embedding:
* a missing (NaN) cell of the trial log is `Option.none`;
* float values flowing through the PSE map and MoCS `center` column are
  `RVal` (`nan` or an exact rational), because the code lets NaN propagate;
* pandas DataFrames are lists of records, kept in original row order;
* `pandas.groupby(sort=True)` followed by `sort_values` is modelled with an
  insertion sort (stable, like the lexicographic sort pandas performs).
-/

/-- A raw staircase trial-log row.  `label` is the `trials.label` column,
`intensity` is `trials.intensity`, `block` is the inferred block column
(`blocks.thisRepN` / `blocks.thisN`); `none` models a missing (NaN) cell. -/
structure TrialRow where
  label : Option String
  intensity : Option ℚ
  block : Option ℤ
deriving DecidableEq, Repr

/-- `SURROUND_ORDER = ['noss','poss','negs']` from the source. -/
def surroundOrder : List String := ["noss", "poss", "negs"]

/-- The trailing underscore-delimited token of a string: the characters after
the last `'_'` (the whole string when no `'_'` occurs).  This is exactly
`label.split('_')[-1]` from `_extract_surround_from_label`. -/
def lastToken (s : String) : String :=
  String.mk (s.data.foldl (fun acc c => if c = '_' then [] else acc ++ [c]) [])

/-- `df.dropna(subset=['trials.label','trials.intensity'])`: keep the rows
whose label and intensity are both present. -/
def cleanTrials (rows : List TrialRow) : List TrialRow :=
  rows.filter (fun r => r.label.isSome && r.intensity.isSome)

/-- The surround condition of a row, from the trailing token of its label. -/
def rowSurround (r : TrialRow) : String :=
  lastToken (r.label.getD "")

/-- The rows of one `(block, condition)` group, in original row order
(the `groupby` + `sort_index()` of the source keeps run order). -/
def groupRows (rows : List TrialRow) (b : Option ℤ) (cond : String) : List TrialRow :=
  (cleanTrials rows).filter (fun r => decide (r.block = b ∧ rowSurround r = cond))

/-- The intensities of one `(block, condition)` group, in original row order. -/
def groupIntensities (rows : List TrialRow) (b : Option ℤ) (cond : String) : List ℚ :=
  (groupRows rows b cond).filterMap (fun r => r.intensity)

/-- `_last_k_mean(series, k)`: `nan` on an empty series, otherwise the mean of
`series.tail(min(k, len(series)))`.  The inner `none` branch is pandas' NaN
mean of an empty tail, reachable only with `k = 0`. -/
def lastKMean (xs : List ℚ) (k : ℕ) : Option ℚ :=
  if xs.isEmpty then none
  else
    let keff := min k xs.length
    if keff = 0 then none
    else some ((xs.drop (xs.length - keff)).sum / (keff : ℚ))

/-- One row of the `per_block` table of `pse_last_k_per_block_per_condition`
(the source prints a NaN block id as the string `'NA'`; we keep `none`). -/
structure PerBlockRow where
  block_id : Option ℤ
  condition : String
  n_trials_available : ℕ
  n_used : ℕ
  mean_last_k : Option ℚ
deriving DecidableEq, Repr

/-- The `per_block` entry for a given block id and surround condition. -/
def perBlockRow (rows : List TrialRow) (b : Option ℤ) (cond : String) (k : ℕ) : PerBlockRow :=
  { block_id := b
    condition := cond
    n_trials_available := (groupRows rows b cond).length
    n_used := min k (groupRows rows b cond).length
    mean_last_k := lastKMean (groupIntensities rows b cond) k }

/-- First-occurrence deduplication, accumulator of already-seen elements. -/
def dedupAux {α : Type} [DecidableEq α] : List α → List α → List α
  | [], _ => []
  | x :: xs, seen => if x ∈ seen then dedupAux xs seen else x :: dedupAux xs (x :: seen)

/-- First-occurrence deduplication (the order `pd.unique` produces). -/
def dedupFirst {α : Type} [DecidableEq α] (l : List α) : List α :=
  dedupAux l []

/-- Ordering of block ids used by `groupby(sort=True, dropna=False)`:
numeric ascending, the NaN group last. -/
def optIntLe (a b : Option ℤ) : Prop :=
  match a, b with
  | some x, some y => x ≤ y
  | some _, none => True
  | none, some _ => False
  | none, none => True

instance : DecidableRel optIntLe := fun a b => by
  unfold optIntLe
  cases a <;> cases b <;> infer_instance

/-- The distinct block ids of the cleaned log, in the order `groupby`
enumerates its groups. -/
def blockIds (rows : List TrialRow) : List (Option ℤ) :=
  List.insertionSort optIntLe (dedupFirst ((cleanTrials rows).map (fun r => r.block)))

/-- The full `per_block` table: for each block, one row per surround
condition in `SURROUND_ORDER` (this is already the `['block_id','condition']`
sort order the source applies at the end). -/
def perBlockTable (rows : List TrialRow) (k : ℕ) : List PerBlockRow :=
  (blockIds rows).flatMap (fun b => surroundOrder.map (fun c => perBlockRow rows b c k))

/-- One row of the `collapsed` table: condition, PSE, `n_blocks_used`. -/
structure CollapsedRow where
  condition : String
  PSE : Option ℚ
  n_blocks_used : ℕ
deriving DecidableEq, Repr

/-- pandas' NaN-skipping mean: mean of the defined entries, NaN when all
entries are undefined. -/
def nanMean (xs : List (Option ℚ)) : Option ℚ :=
  let vs := xs.filterMap id
  if vs.isEmpty then none else some (vs.sum / (vs.length : ℚ))

/-- The `collapsed` entry for one condition: grouping the `per_block` table
by condition, `PSE = mean(mean_last_k)` (NaN-skipping) and
`n_blocks_used = count of non-NaN mean_last_k`. -/
def collapsedRow (rows : List TrialRow) (cond : String) (k : ℕ) : CollapsedRow :=
  let ms := ((perBlockTable rows k).filter (fun r => decide (r.condition = cond))).map
      (fun r => r.mean_last_k)
  { condition := cond
    PSE := nanMean ms
    n_blocks_used := (ms.filterMap id).length }

/-- The `collapsed` table, in the categorical order `[noss, poss, negs]`. -/
def collapsedTable (rows : List TrialRow) (k : ℕ) : List CollapsedRow :=
  surroundOrder.map (fun c => collapsedRow rows c k)

/-- Helper: `filterMap` of an everywhere-`some` function keeps the length. -/
theorem length_filterMap_of_isSome {α β : Type} (f : α → Option β) :
    ∀ l : List α, (∀ a ∈ l, (f a).isSome) → (l.filterMap f).length = l.length := by
  intro l
  induction l with
  | nil => intro _; rfl
  | cons x xs ih =>
      intro h
      have hx := h x (List.mem_cons_self x xs)
      obtain ⟨y, hy⟩ := Option.isSome_iff_exists.mp hx
      simp only [List.filterMap_cons, hy, List.length_cons]
      rw [ih (fun a ha => h a (List.mem_cons_of_mem x ha))]

/-- Helper: every group member carries a present intensity. -/
theorem groupRows_intensity_isSome (rows : List TrialRow) (b : Option ℤ) (cond : String) :
    ∀ r ∈ groupRows rows b cond, r.intensity.isSome := by
  intro r hr
  have hr' : r ∈ cleanTrials rows := List.mem_of_mem_filter hr
  have := List.of_mem_filter hr'
  simp only [Bool.and_eq_true] at this
  exact this.2

/-- Helper: group intensities and group rows have the same length. -/
theorem groupIntensities_length (rows : List TrialRow) (b : Option ℤ) (cond : String) :
    (groupIntensities rows b cond).length = (groupRows rows b cond).length :=
  length_filterMap_of_isSome _ _ (groupRows_intensity_isSome rows b cond)

/-- C1: for every staircase log (rows with missing label or intensity
dropped) and every `k > 0`, the per-block entry for a `(block, condition)`
group has `n_used = min(k, n_trials_available)`; its `mean_last_k` is the
NaN sentinel for an empty group and otherwise the arithmetic mean of
exactly the last `n_used` intensities of the group in original row order
(`groupIntensities` preserves run order; nothing is re-sorted by value);
and the entry is the one the `per_block` table carries for that pair. -/
theorem staircase_perBlock_lastK_mean (rows : List TrialRow) (k : ℕ) (hk : 0 < k)
    (b : Option ℤ) (cond : String) :
    (perBlockRow rows b cond k).n_used = min k (perBlockRow rows b cond k).n_trials_available ∧
    (groupRows rows b cond = [] → (perBlockRow rows b cond k).mean_last_k = none) ∧
    (groupRows rows b cond ≠ [] →
      (perBlockRow rows b cond k).mean_last_k =
        some (((groupIntensities rows b cond).drop
                ((groupIntensities rows b cond).length - (perBlockRow rows b cond k).n_used)).sum
              / ((perBlockRow rows b cond k).n_used : ℚ))) ∧
    (b ∈ blockIds rows → cond ∈ surroundOrder →
      perBlockRow rows b cond k ∈ perBlockTable rows k) := by
  refine ⟨rfl, ?_, ?_, ?_⟩
  · intro hempty
    simp only [perBlockRow, lastKMean, groupIntensities, hempty]
    rfl
  · intro hne
    have hlen := groupIntensities_length rows b cond
    have hpos : 0 < (groupRows rows b cond).length := List.length_pos.mpr hne
    have hipos : 0 < (groupIntensities rows b cond).length := by rw [hlen]; exact hpos
    have hinne : ¬ (groupIntensities rows b cond).isEmpty := by
      rw [List.isEmpty_iff]
      exact fun h => by simp [h] at hipos
    have hkeff : ¬ (min k (groupIntensities rows b cond).length = 0) := by
      rcases Nat.lt_or_ge k (groupIntensities rows b cond).length with h | h
      · rw [Nat.min_eq_left (Nat.le_of_lt h)]; omega
      · rw [Nat.min_eq_right h]; omega
    show lastKMean (groupIntensities rows b cond) k = _
    rw [lastKMean, if_neg (by simp [hinne]), if_neg hkeff]
    have : (perBlockRow rows b cond k).n_used = min k (groupIntensities rows b cond).length := by
      show min k (groupRows rows b cond).length = _
      rw [hlen]
    rw [← this]
  · intro hb hcond
    unfold perBlockTable
    rw [List.mem_flatMap]
    exact ⟨b, hb, List.mem_map_of_mem _ hcond⟩

/-- Sample staircase log: three `noss` trials in block 0 (intensities
4, 6, 10), a row with missing label, a row with missing intensity,
and one `poss` trial. -/
def sampleTrials : List TrialRow :=
  [ ⟨some "stair_noss", some 4, some 0⟩,
    ⟨some "stair_noss", some 6, some 0⟩,
    ⟨some "stair_noss", some 10, some 0⟩,
    ⟨none, some 5, some 0⟩,
    ⟨some "stair_poss", none, some 0⟩,
    ⟨some "stair_poss", some 3, some 0⟩ ]

/-- Witness for C1 at a concrete log with `k = 2`. -/
theorem staircase_perBlock_lastK_mean_witness :
    (perBlockRow sampleTrials (some 0) "noss" 2).n_used =
      min 2 (perBlockRow sampleTrials (some 0) "noss" 2).n_trials_available ∧
    (perBlockRow sampleTrials (some 0) "noss" 2).mean_last_k =
      some (((groupIntensities sampleTrials (some 0) "noss").drop
              ((groupIntensities sampleTrials (some 0) "noss").length -
                (perBlockRow sampleTrials (some 0) "noss" 2).n_used)).sum
            / ((perBlockRow sampleTrials (some 0) "noss" 2).n_used : ℚ)) := by
  have h := staircase_perBlock_lastK_mean sampleTrials 2 (by decide) (some 0) "noss"
  refine ⟨h.1, h.2.2.1 ?_⟩
  decide

/-- Helper: `filter` distributes over `flatMap`. -/
theorem filter_flatMap {α β : Type} (l : List α) (f : α → List β) (p : β → Bool) :
    (l.flatMap f).filter p = l.flatMap (fun a => (f a).filter p) := by
  induction l with
  | nil => rfl
  | cons x xs ih => simp only [List.flatMap_cons, List.filter_append, ih]

/-- Helper: restricting the `per_block` table to one of the three surround
conditions leaves exactly that condition's entry for each block. -/
theorem perBlockTable_filter_condition (rows : List TrialRow) (k : ℕ) (cond : String)
    (h : cond ∈ surroundOrder) :
    (perBlockTable rows k).filter (fun r => decide (r.condition = cond)) =
      (blockIds rows).map (fun b => perBlockRow rows b cond k) := by
  unfold perBlockTable
  rw [filter_flatMap]
  have hmap : ∀ b : Option ℤ,
      (surroundOrder.map (fun c => perBlockRow rows b c k)).filter
        (fun r => decide (r.condition = cond)) = [perBlockRow rows b cond k] := by
    intro b
    have hcond : ∀ c : String, (perBlockRow rows b c k).condition = c := fun _ => rfl
    simp only [surroundOrder, List.mem_cons] at h
    rcases h with h | h | h | h
    all_goals try subst h
    all_goals simp [surroundOrder, List.filter, hcond]
    exact absurd h (List.not_mem_nil cond)
  simp only [hmap]
  induction blockIds rows with
  | nil => rfl
  | cons x xs ih => simp only [List.flatMap_cons, List.map_cons, ih, List.singleton_append]

/-- C2: for every staircase log and every surround condition, the collapsed
`PSE` equals the unweighted mean of the per-block `mean_last_k` values over
exactly the blocks where that mean is defined (`n_blocks_used` counts those
blocks); blocks with an undefined mean contribute to neither, and a condition
with no defined block yields the NaN sentinel.  The row is the one the
`collapsed` table carries. -/
theorem staircase_collapsed_PSE (rows : List TrialRow) (k : ℕ) (cond : String)
    (h : cond ∈ surroundOrder) :
    (collapsedRow rows cond k).n_blocks_used =
      ((blockIds rows).filterMap (fun b => (perBlockRow rows b cond k).mean_last_k)).length ∧
    (collapsedRow rows cond k).PSE =
      (if (blockIds rows).filterMap (fun b => (perBlockRow rows b cond k).mean_last_k) = []
       then none
       else some (((blockIds rows).filterMap
                     (fun b => (perBlockRow rows b cond k).mean_last_k)).sum /
                  (((blockIds rows).filterMap
                     (fun b => (perBlockRow rows b cond k).mean_last_k)).length : ℚ))) ∧
    collapsedRow rows cond k ∈ collapsedTable rows k := by
  have key : ((perBlockTable rows k).filter (fun r => decide (r.condition = cond))).map
        (fun r => r.mean_last_k) =
      (blockIds rows).map (fun b => (perBlockRow rows b cond k).mean_last_k) := by
    rw [perBlockTable_filter_condition rows k cond h, List.map_map]
    rfl
  have fm : (((perBlockTable rows k).filter (fun r => decide (r.condition = cond))).map
        (fun r => r.mean_last_k)).filterMap id =
      (blockIds rows).filterMap (fun b => (perBlockRow rows b cond k).mean_last_k) := by
    rw [key, List.filterMap_map]
    rfl
  refine ⟨?_, ?_, List.mem_map_of_mem _ h⟩
  · show ((((perBlockTable rows k).filter (fun r => decide (r.condition = cond))).map
        (fun r => r.mean_last_k)).filterMap id).length = _
    rw [fm]
  · show nanMean (((perBlockTable rows k).filter (fun r => decide (r.condition = cond))).map
        (fun r => r.mean_last_k)) = _
    rw [nanMean]
    simp only [fm, List.isEmpty_iff]

/-- Witness for C2 at a concrete log: one defined `noss` block mean. -/
theorem staircase_collapsed_PSE_witness :
    (collapsedRow sampleTrials "noss" 2).n_blocks_used =
      ((blockIds sampleTrials).filterMap
        (fun b => (perBlockRow sampleTrials b "noss" 2).mean_last_k)).length ∧
    collapsedRow sampleTrials "noss" 2 ∈ collapsedTable sampleTrials 2 := by
  have h := staircase_collapsed_PSE sampleTrials 2 "noss" (by decide)
  exact ⟨h.1, h.2.2⟩

/-- A Python float as the PSE map and stimulus columns use it: either NaN or
an exact value.  Arithmetic lets NaN propagate, as floats do. -/
inductive RVal where
  | nan : RVal
  | val : ℚ → RVal
deriving DecidableEq, Repr

/-- Float addition with a plain offset: NaN propagates. -/
def RVal.add : RVal → ℚ → RVal
  | RVal.nan, _ => RVal.nan
  | RVal.val a, q => RVal.val (a + q)

/-- Float `abs`: NaN propagates. -/
def RVal.abs : RVal → RVal
  | RVal.nan => RVal.nan
  | RVal.val a => RVal.val |a|

/-- Float negation: NaN propagates. -/
def RVal.neg : RVal → RVal
  | RVal.nan => RVal.nan
  | RVal.val a => RVal.val (-a)

/-- Multiplication by an exact scalar (the `base_sign` of the source). -/
def RVal.scale (c : ℚ) : RVal → RVal
  | RVal.nan => RVal.nan
  | RVal.val a => RVal.val (c * a)

/-- Python's `pse >= 0`: false on NaN (so NaN picks `base_sign = -1`). -/
def RVal.geZero : RVal → Bool
  | RVal.nan => false
  | RVal.val a => decide (0 ≤ a)

/-- Present value of a float, dropping NaN (`Series.dropna`). -/
def RVal.toOpt : RVal → Option ℚ
  | RVal.nan => none
  | RVal.val a => some a

/-- One output row of `make_stimuli_from_pse`, the `practice_stims` schema
`['center','surround','type','surr_type','surr_opacity']`. -/
structure StimRow where
  center : RVal
  surround : ℚ
  type : String
  surr_type : String
  surr_opacity : ℕ
deriving DecidableEq, Repr

/-- The 5-condition offset table `m2, m1, PSE, p1, p2`. -/
def offsets5 (step : ℚ) : List (String × ℚ) :=
  [("m2", -2 * step), ("m1", -1 * step), ("PSE", 0), ("p1", 1 * step), ("p2", 2 * step)]

/-- The 7-condition offset table `m3, m2, m1, PSE, p1, p2, p3`. -/
def offsets7 (step : ℚ) : List (String × ℚ) :=
  [("m3", -3 * step), ("m2", -2 * step), ("m1", -1 * step), ("PSE", 0),
   ("p1", 1 * step), ("p2", 2 * step), ("p3", 3 * step)]

/-- Offset table selected by `n_conditions` (empty off the 5/7 branches,
which `make_stimuli_from_pse` rejects before using it). -/
def offsetsFor (n : ℕ) (step : ℚ) : List (String × ℚ) :=
  if n = 5 then offsets5 step else if n = 7 then offsets7 step else []

/-- Python `dict` lookup on the PSE map. -/
def lookupPse : List (String × RVal) → String → Option RVal
  | [], _ => none
  | p :: ps, key => if p.1 = key then some p.2 else lookupPse ps key

/-- The `poss` block of rows: `center = +abs(pse + delta)`,
`surround = +abs(surround_mag)`, opacity 100, `reps_poss_negs` copies. -/
def possRows (pseV : RVal) (offsets : List (String × ℚ)) (smag : ℚ) (reps : ℕ) :
    List StimRow :=
  offsets.flatMap (fun td => List.replicate reps
    { center := (pseV.add td.2).abs, surround := |smag|, type := td.1,
      surr_type := "poss", surr_opacity := 100 })

/-- The `negs` block of rows: `center = -abs(pse + delta)`,
`surround = -abs(surround_mag)`, opacity 100, `reps_poss_negs` copies. -/
def negsRows (pseV : RVal) (offsets : List (String × ℚ)) (smag : ℚ) (reps : ℕ) :
    List StimRow :=
  offsets.flatMap (fun td => List.replicate reps
    { center := ((pseV.add td.2).abs).neg, surround := -|smag|, type := td.1,
      surr_type := "negs", surr_opacity := 100 })

/-- The `noss` block of rows: a single sign fixed once from `PSE_noss >= 0`,
`center = base_sign * abs(pse + delta)`, no surround, opacity 0,
`reps_noss` copies. -/
def nossRows (pseV : RVal) (offsets : List (String × ℚ)) (reps : ℕ) : List StimRow :=
  offsets.flatMap (fun td => List.replicate reps
    { center := RVal.scale (if pseV.geZero then 1 else -1) ((pseV.add td.2).abs),
      surround := 0, type := td.1, surr_type := "noss", surr_opacity := 0 })

/-- `surr_order = {'poss':0,'negs':1,'noss':2}` of the final sort. -/
def surrRank (s : String) : ℕ :=
  if s = "poss" then 0 else if s = "negs" then 1 else 2

/-- Order on centers used by `sort_values`: numeric ascending, NaN last. -/
def rvalLe : RVal → RVal → Prop
  | RVal.val a, RVal.val b => a ≤ b
  | RVal.val _, RVal.nan => True
  | RVal.nan, RVal.val _ => False
  | RVal.nan, RVal.nan => True

instance : DecidableRel rvalLe := fun a b => by
  unfold rvalLe
  cases a <;> cases b <;> infer_instance

/-- `type_order`: the index of an offset label in the offset-table order
(the rank `out['type'].map(type_order)` assigns). -/
def typeRank : List String → String → ℕ
  | [], _ => 0
  | l :: ls, t => if l = t then 0 else typeRank ls t + 1

/-- The `sort_values(['__so','__to','center'])` order: surround rank, then
offset-label rank in table order, then center ascending. -/
def stimLe (labels : List String) (a b : StimRow) : Prop :=
  surrRank a.surr_type < surrRank b.surr_type ∨
    (surrRank a.surr_type = surrRank b.surr_type ∧
      (typeRank labels a.type < typeRank labels b.type ∨
        (typeRank labels a.type = typeRank labels b.type ∧
          rvalLe a.center b.center)))

instance (labels : List String) : DecidableRel (stimLe labels) := fun a b => by
  unfold stimLe
  infer_instance

/-- `make_stimuli_from_pse`: key check, level-count check, the three blocks
of rows, and the final stable sort by (surround rank, offset rank, center). -/
def makeStimuliFromPse (pse : List (String × RVal)) (step : ℚ) (surround_mag : ℚ)
    (reps_poss_negs : ℕ) (reps_noss : ℕ) (n_conditions : ℕ) :
    Except String (List StimRow) :=
  if (lookupPse pse "poss").isNone || (lookupPse pse "negs").isNone ||
      (lookupPse pse "noss").isNone then
    Except.error "pse_by_condition must include poss, negs, and noss."
  else if n_conditions = 5 ∨ n_conditions = 7 then
    let offsets := offsetsFor n_conditions step
    let rows :=
      possRows ((lookupPse pse "poss").getD RVal.nan) offsets surround_mag reps_poss_negs ++
      negsRows ((lookupPse pse "negs").getD RVal.nan) offsets surround_mag reps_poss_negs ++
      nossRows ((lookupPse pse "noss").getD RVal.nan) offsets reps_noss
    Except.ok (List.insertionSort (stimLe (offsets.map Prod.fst)) rows)
  else
    Except.error "n_conditions must be 5 or 7"

/-- The PSE map of the worked example: `{poss: 10, negs: -8, noss: 1}`. -/
def demoPse : List (String × RVal) :=
  [("poss", RVal.val 10), ("negs", RVal.val (-8)), ("noss", RVal.val 1)]

/-- The stimulus table the worked example produces, in final sorted order. -/
def demoStimuli : List StimRow :=
  [ ⟨RVal.val 9, 15, "m2", "poss", 100⟩,
    ⟨RVal.val (19/2), 15, "m1", "poss", 100⟩,
    ⟨RVal.val 10, 15, "PSE", "poss", 100⟩,
    ⟨RVal.val (21/2), 15, "p1", "poss", 100⟩,
    ⟨RVal.val 11, 15, "p2", "poss", 100⟩,
    ⟨RVal.val (-9), -15, "m2", "negs", 100⟩,
    ⟨RVal.val (-17/2), -15, "m1", "negs", 100⟩,
    ⟨RVal.val (-8), -15, "PSE", "negs", 100⟩,
    ⟨RVal.val (-15/2), -15, "p1", "negs", 100⟩,
    ⟨RVal.val (-7), -15, "p2", "negs", 100⟩,
    ⟨RVal.val 0, 0, "m2", "noss", 0⟩,
    ⟨RVal.val (1/2), 0, "m1", "noss", 0⟩,
    ⟨RVal.val 1, 0, "PSE", "noss", 0⟩,
    ⟨RVal.val (3/2), 0, "p1", "noss", 0⟩,
    ⟨RVal.val 2, 0, "p2", "noss", 0⟩ ]

/-- C3: with `levelCount = 5`, `step = 0.5`, PSEs `{poss:10, negs:-8, noss:1}`,
`surroundMagnitude = 15` and both repetition counts 1, the builder returns
exactly the 15 rows of `demoStimuli`: 5 `poss` rows with centers
`9, 9.5, 10, 10.5, 11`, `surround = +15`, opacity 100; 5 `negs` rows with
centers `-9, -8.5, -8, -7.5, -7`, `surround = -15`, opacity 100; and 5
`noss` rows, all positive-signed, with centers `0, 0.5, 1, 1.5, 2`,
`surround = 0`, opacity 0. -/
theorem builder_example_table :
    makeStimuliFromPse demoPse (1/2) 15 1 1 5 = Except.ok demoStimuli ∧
    demoStimuli.length = 15 ∧
    (demoStimuli.filter (fun r => decide (r.surr_type = "poss"))).map (fun r => r.center) =
      [RVal.val 9, RVal.val (19/2), RVal.val 10, RVal.val (21/2), RVal.val 11] ∧
    (∀ r ∈ demoStimuli, r.surr_type = "poss" → r.surround = 15 ∧ r.surr_opacity = 100) ∧
    (demoStimuli.filter (fun r => decide (r.surr_type = "negs"))).map (fun r => r.center) =
      [RVal.val (-9), RVal.val (-17/2), RVal.val (-8), RVal.val (-15/2), RVal.val (-7)] ∧
    (∀ r ∈ demoStimuli, r.surr_type = "negs" → r.surround = -15 ∧ r.surr_opacity = 100) ∧
    (demoStimuli.filter (fun r => decide (r.surr_type = "noss"))).map (fun r => r.center) =
      [RVal.val 0, RVal.val (1/2), RVal.val 1, RVal.val (3/2), RVal.val 2] ∧
    (∀ r ∈ demoStimuli, r.surr_type = "noss" → r.surround = 0 ∧ r.surr_opacity = 0) := by
  refine ⟨?_, ?_, ?_, ?_, ?_, ?_, ?_, ?_⟩
  · have h1 : lookupPse demoPse "poss" = some (RVal.val 10) := by
      simp [demoPse, lookupPse]
    have h2 : lookupPse demoPse "negs" = some (RVal.val (-8)) := by
      simp [demoPse, lookupPse]
    have h3 : lookupPse demoPse "noss" = some (RVal.val 1) := by
      simp [demoPse, lookupPse]
    have hoff : offsetsFor 5 (1/2 : ℚ) =
        [("m2", -1), ("m1", -(1/2)), ("PSE", 0), ("p1", 1/2), ("p2", 1)] := by
      simp [offsetsFor, offsets5]
    have hposs : possRows (RVal.val 10)
        [("m2", (-1 : ℚ)), ("m1", -(1/2)), ("PSE", 0), ("p1", 1/2), ("p2", 1)] 15 1 =
        demoStimuli.take 5 := by
      simp [possRows, RVal.add, RVal.abs, demoStimuli, List.replicate]
      all_goals norm_num
    have hnegs : negsRows (RVal.val (-8))
        [("m2", (-1 : ℚ)), ("m1", -(1/2)), ("PSE", 0), ("p1", 1/2), ("p2", 1)] 15 1 =
        (demoStimuli.drop 5).take 5 := by
      simp [negsRows, RVal.add, RVal.abs, RVal.neg, demoStimuli, List.replicate]
      all_goals norm_num
    have hnoss : nossRows (RVal.val 1)
        [("m2", (-1 : ℚ)), ("m1", -(1/2)), ("PSE", 0), ("p1", 1/2), ("p2", 1)] 1 =
        demoStimuli.drop 10 := by
      simp [nossRows, RVal.add, RVal.abs, RVal.scale, RVal.geZero, demoStimuli,
        List.replicate]
      all_goals norm_num
    have hsorted : List.Sorted (stimLe ["m2", "m1", "PSE", "p1", "p2"]) demoStimuli := by
      simp [List.Sorted, List.pairwise_cons, demoStimuli, stimLe, surrRank,
        typeRank, rvalLe]
    have hbody : makeStimuliFromPse demoPse (1/2) 15 1 1 5 =
        Except.ok (List.insertionSort (stimLe ((offsetsFor 5 (1/2)).map Prod.fst))
          (possRows ((lookupPse demoPse "poss").getD RVal.nan) (offsetsFor 5 (1/2)) 15 1 ++
           negsRows ((lookupPse demoPse "negs").getD RVal.nan) (offsetsFor 5 (1/2)) 15 1 ++
           nossRows ((lookupPse demoPse "noss").getD RVal.nan) (offsetsFor 5 (1/2)) 1)) := by
      rw [makeStimuliFromPse]
      rw [if_neg (by simp [h1, h2, h3]), if_pos (Or.inl rfl : (5:ℕ) = 5 ∨ (5:ℕ) = 7)]
    rw [hbody, h1, h2, h3, hoff]
    simp only [Option.getD_some, List.map_cons, List.map_nil]
    rw [hposs, hnegs, hnoss]
    have hcat : demoStimuli.take 5 ++ (demoStimuli.drop 5).take 5 ++ demoStimuli.drop 10 =
        demoStimuli := by
      simp [demoStimuli]
    rw [hcat, List.Sorted.insertionSort_eq hsorted]
  · simp [demoStimuli]
  · simp [demoStimuli, List.filter]
  · simp [demoStimuli]
  · simp [demoStimuli, List.filter]
  · simp [demoStimuli]
  · simp [demoStimuli, List.filter]
  · simp [demoStimuli]

/-- C4: for every PSE map whose three keys are present and whose `noss`
entry is a defined value `v`, every step, surround magnitude, repetition
counts, and level count in `{5, 7}`, the builder succeeds and every `noss`
row it emits has `surround = 0`, `surr_opacity = 0`, and
`center = sign * |v + offset|` for some offset of the level table, where
the single sign is `+1` when `v ≥ 0` and `-1` otherwise — fixed once from
the PSE, not recomputed per offset.  Conversely, when `reps_noss > 0`,
every offset of the table is realised by such a row. -/
theorem builder_noss_single_sign (pse : List (String × RVal)) (v : ℚ)
    (step smag : ℚ) (rpn rn : ℕ) (n : ℕ)
    (hn : n = 5 ∨ n = 7)
    (hp : (lookupPse pse "poss").isSome)
    (hg : (lookupPse pse "negs").isSome)
    (hs : lookupPse pse "noss" = some (RVal.val v)) :
    ∃ l, makeStimuliFromPse pse step smag rpn rn n = Except.ok l ∧
      (∀ r ∈ l, r.surr_type = "noss" →
        r.surround = 0 ∧ r.surr_opacity = 0 ∧
        ∃ td ∈ offsetsFor n step,
          r.center = RVal.val ((if 0 ≤ v then 1 else -1) * |v + td.2|)) ∧
      (0 < rn → ∀ td ∈ offsetsFor n step, ∃ r ∈ l,
        r.surr_type = "noss" ∧ r.surround = 0 ∧ r.surr_opacity = 0 ∧
        r.center = RVal.val ((if 0 ≤ v then 1 else -1) * |v + td.2|)) := by
  obtain ⟨vp, hvp⟩ := Option.isSome_iff_exists.mp hp
  obtain ⟨vg, hvg⟩ := Option.isSome_iff_exists.mp hg
  have hok : makeStimuliFromPse pse step smag rpn rn n =
      Except.ok (List.insertionSort (stimLe ((offsetsFor n step).map Prod.fst))
        (possRows vp (offsetsFor n step) smag rpn ++
         negsRows vg (offsetsFor n step) smag rpn ++
         nossRows (RVal.val v) (offsetsFor n step) rn)) := by
    rw [makeStimuliFromPse, if_neg (by simp [hvp, hvg, hs]), if_pos hn]
    rw [hvp, hvg, hs]
    rfl
  refine ⟨_, hok, ?_, ?_⟩
  · intro r hr hnossty
    have hr' : r ∈ possRows vp (offsetsFor n step) smag rpn ++
        negsRows vg (offsetsFor n step) smag rpn ++
        nossRows (RVal.val v) (offsetsFor n step) rn :=
      ((List.perm_insertionSort _ _).mem_iff).mp hr
    rcases List.mem_append.mp hr' with hr2 | hr3
    · rcases List.mem_append.mp hr2 with hrp | hrn
      · obtain ⟨td, -, hrep⟩ := List.mem_flatMap.mp hrp
        obtain ⟨-, hre⟩ := List.mem_replicate.mp hrep
        subst hre
        simp [possRows] at hnossty
      · obtain ⟨td, -, hrep⟩ := List.mem_flatMap.mp hrn
        obtain ⟨-, hre⟩ := List.mem_replicate.mp hrep
        subst hre
        simp [negsRows] at hnossty
    · obtain ⟨td, htd, hrep⟩ := List.mem_flatMap.mp hr3
      obtain ⟨-, hre⟩ := List.mem_replicate.mp hrep
      subst hre
      refine ⟨rfl, rfl, td, htd, ?_⟩
      show RVal.scale (if (RVal.val v).geZero then 1 else -1) (((RVal.val v).add td.2).abs) = _
      by_cases hv : 0 ≤ v
      · simp [RVal.add, RVal.abs, RVal.scale, RVal.geZero, hv]
      · simp [RVal.add, RVal.abs, RVal.scale, RVal.geZero, hv]
  · intro hrn td htd
    refine ⟨{ center := RVal.scale (if (RVal.val v).geZero then 1 else -1)
                (((RVal.val v).add td.2).abs),
              surround := 0, type := td.1, surr_type := "noss", surr_opacity := 0 },
            ?_, rfl, rfl, rfl, ?_⟩
    · apply ((List.perm_insertionSort _ _).mem_iff).mpr
      apply List.mem_append.mpr
      right
      apply List.mem_flatMap.mpr
      exact ⟨td, htd, List.mem_replicate.mpr ⟨Nat.pos_iff_ne_zero.mp hrn, rfl⟩⟩
    · show RVal.scale (if (RVal.val v).geZero then 1 else -1) (((RVal.val v).add td.2).abs) = _
      by_cases hv : 0 ≤ v
      · simp [RVal.add, RVal.abs, RVal.scale, RVal.geZero, hv]
      · simp [RVal.add, RVal.abs, RVal.scale, RVal.geZero, hv]

/-- Witness for C4 at a concrete map with a negative `noss` PSE. -/
theorem builder_noss_single_sign_witness :
    (makeStimuliFromPse [("poss", RVal.val 1), ("negs", RVal.val 2), ("noss", RVal.val (-3))]
      (1/2) 15 1 1 5).toOption.isSome = true := by
  obtain ⟨l, hl, -, -⟩ := builder_noss_single_sign
    [("poss", RVal.val 1), ("negs", RVal.val 2), ("noss", RVal.val (-3))] (-3)
    (1/2) 15 1 1 5 (Or.inl rfl) (by simp [lookupPse]) (by simp [lookupPse])
    (by simp [lookupPse])
  rw [hl]
  rfl

/-- Helper: length of a block of repeated rows, one burst per offset. -/
theorem length_flatMap_replicate {α β : Type} (f : α → β) (offs : List α) (reps : ℕ) :
    (offs.flatMap (fun td => List.replicate reps (f td))).length = offs.length * reps := by
  induction offs with
  | nil => simp
  | cons x xs ih =>
      simp only [List.flatMap_cons, List.length_append, List.length_replicate, ih,
        List.length_cons]
      ring

/-- A PSE map whose `noss` estimate is the NaN sentinel (what the staircase
aggregator returns for a condition with zero contributing blocks). -/
def nanPse : List (String × RVal) :=
  [("poss", RVal.val 1), ("negs", RVal.val 1), ("noss", RVal.nan)]

/-- The 15 rows `make_stimuli_from_pse` produces from `nanPse`: the `noss`
rows carry NaN centers, but nothing fails. -/
def nanStimuli : List StimRow :=
  [ ⟨RVal.val 0, 15, "m2", "poss", 100⟩,
    ⟨RVal.val (1/2), 15, "m1", "poss", 100⟩,
    ⟨RVal.val 1, 15, "PSE", "poss", 100⟩,
    ⟨RVal.val (3/2), 15, "p1", "poss", 100⟩,
    ⟨RVal.val 2, 15, "p2", "poss", 100⟩,
    ⟨RVal.val 0, -15, "m2", "negs", 100⟩,
    ⟨RVal.val (-(1/2)), -15, "m1", "negs", 100⟩,
    ⟨RVal.val (-1), -15, "PSE", "negs", 100⟩,
    ⟨RVal.val (-(3/2)), -15, "p1", "negs", 100⟩,
    ⟨RVal.val (-2), -15, "p2", "negs", 100⟩,
    ⟨RVal.nan, 0, "m2", "noss", 0⟩,
    ⟨RVal.nan, 0, "m1", "noss", 0⟩,
    ⟨RVal.nan, 0, "PSE", "noss", 0⟩,
    ⟨RVal.nan, 0, "p1", "noss", 0⟩,
    ⟨RVal.nan, 0, "p2", "noss", 0⟩ ]

/-- C5 counterexample: invoked with an undefined (NaN) `noss` PSE, the
builder does NOT fail — it returns 15 output rows (the `noss` centers are
NaN), refuting the claim that construction errors out on a NaN PSE. -/
theorem builder_nan_pse_counterexample :
    makeStimuliFromPse nanPse (1/2) 15 1 1 5 = Except.ok nanStimuli ∧
    nanStimuli.length = 15 := by
  constructor
  · have h1 : lookupPse nanPse "poss" = some (RVal.val 1) := by
      simp [nanPse, lookupPse]
    have h2 : lookupPse nanPse "negs" = some (RVal.val 1) := by
      simp [nanPse, lookupPse]
    have h3 : lookupPse nanPse "noss" = some RVal.nan := by
      simp [nanPse, lookupPse]
    have hoff : offsetsFor 5 (1/2 : ℚ) =
        [("m2", -1), ("m1", -(1/2)), ("PSE", 0), ("p1", 1/2), ("p2", 1)] := by
      simp [offsetsFor, offsets5]
    have hposs : possRows (RVal.val 1)
        [("m2", (-1 : ℚ)), ("m1", -(1/2)), ("PSE", 0), ("p1", 1/2), ("p2", 1)] 15 1 =
        nanStimuli.take 5 := by
      simp [possRows, RVal.add, RVal.abs, nanStimuli, List.replicate]
      all_goals norm_num
    have hnegs : negsRows (RVal.val 1)
        [("m2", (-1 : ℚ)), ("m1", -(1/2)), ("PSE", 0), ("p1", 1/2), ("p2", 1)] 15 1 =
        (nanStimuli.drop 5).take 5 := by
      simp [negsRows, RVal.add, RVal.abs, RVal.neg, nanStimuli, List.replicate]
      all_goals norm_num
    have hnoss : nossRows RVal.nan
        [("m2", (-1 : ℚ)), ("m1", -(1/2)), ("PSE", 0), ("p1", 1/2), ("p2", 1)] 1 =
        nanStimuli.drop 10 := by
      simp [nossRows, RVal.add, RVal.abs, RVal.scale, RVal.geZero, nanStimuli,
        List.replicate]
    have hsorted : List.Sorted (stimLe ["m2", "m1", "PSE", "p1", "p2"]) nanStimuli := by
      simp [List.Sorted, List.pairwise_cons, nanStimuli, stimLe, surrRank,
        typeRank, rvalLe]
    have hbody : makeStimuliFromPse nanPse (1/2) 15 1 1 5 =
        Except.ok (List.insertionSort (stimLe ((offsetsFor 5 (1/2)).map Prod.fst))
          (possRows ((lookupPse nanPse "poss").getD RVal.nan) (offsetsFor 5 (1/2)) 15 1 ++
           negsRows ((lookupPse nanPse "negs").getD RVal.nan) (offsetsFor 5 (1/2)) 15 1 ++
           nossRows ((lookupPse nanPse "noss").getD RVal.nan) (offsetsFor 5 (1/2)) 1)) := by
      rw [makeStimuliFromPse]
      rw [if_neg (by simp [h1, h2, h3]), if_pos (Or.inl rfl : (5:ℕ) = 5 ∨ (5:ℕ) = 7)]
    rw [hbody, h1, h2, h3, hoff]
    simp only [Option.getD_some, List.map_cons, List.map_nil]
    rw [hposs, hnegs, hnoss]
    have hcat : nanStimuli.take 5 ++ (nanStimuli.drop 5).take 5 ++ nanStimuli.drop 10 =
        nanStimuli := by
      simp [nanStimuli]
    rw [hcat, List.Sorted.insertionSort_eq hsorted]
  · simp [nanStimuli]

/-- C5 amended: the builder does not inspect PSE values at all — with the
three condition keys present (defined or NaN) and a valid level count it
always succeeds, returning `levelCount` rows per condition block scaled by
the repetition counts; a NaN `noss` PSE simply yields `noss` rows whose
centers are NaN.  Only a missing key or an invalid level count raises. -/
theorem builder_accepts_nan_pse (pse : List (String × RVal))
    (step smag : ℚ) (rpn rn : ℕ) (n : ℕ)
    (hn : n = 5 ∨ n = 7)
    (hp : (lookupPse pse "poss").isSome)
    (hg : (lookupPse pse "negs").isSome)
    (hs : (lookupPse pse "noss").isSome) :
    ∃ l, makeStimuliFromPse pse step smag rpn rn n = Except.ok l ∧
      l.length = (offsetsFor n step).length * rpn + (offsetsFor n step).length * rpn +
        (offsetsFor n step).length * rn ∧
      (lookupPse pse "noss" = some RVal.nan →
        ∀ r ∈ l, r.surr_type = "noss" → r.center = RVal.nan) := by
  obtain ⟨vp, hvp⟩ := Option.isSome_iff_exists.mp hp
  obtain ⟨vg, hvg⟩ := Option.isSome_iff_exists.mp hg
  obtain ⟨vs, hvs⟩ := Option.isSome_iff_exists.mp hs
  have hok : makeStimuliFromPse pse step smag rpn rn n =
      Except.ok (List.insertionSort (stimLe ((offsetsFor n step).map Prod.fst))
        (possRows vp (offsetsFor n step) smag rpn ++
         negsRows vg (offsetsFor n step) smag rpn ++
         nossRows vs (offsetsFor n step) rn)) := by
    rw [makeStimuliFromPse, if_neg (by simp [hvp, hvg, hvs]), if_pos hn]
    rw [hvp, hvg, hvs]
    rfl
  refine ⟨_, hok, ?_, ?_⟩
  · rw [List.length_insertionSort, List.length_append, List.length_append]
    rw [show possRows vp (offsetsFor n step) smag rpn =
          (offsetsFor n step).flatMap (fun td => List.replicate rpn
            ({ center := (vp.add td.2).abs, surround := |smag|, type := td.1,
               surr_type := "poss", surr_opacity := 100 } : StimRow)) from rfl,
        length_flatMap_replicate]
    rw [show negsRows vg (offsetsFor n step) smag rpn =
          (offsetsFor n step).flatMap (fun td => List.replicate rpn
            ({ center := ((vg.add td.2).abs).neg, surround := -|smag|, type := td.1,
               surr_type := "negs", surr_opacity := 100 } : StimRow)) from rfl,
        length_flatMap_replicate]
    rw [show nossRows vs (offsetsFor n step) rn =
          (offsetsFor n step).flatMap (fun td => List.replicate rn
            ({ center := RVal.scale (if vs.geZero then 1 else -1) ((vs.add td.2).abs),
               surround := 0, type := td.1, surr_type := "noss",
               surr_opacity := 0 } : StimRow)) from rfl,
        length_flatMap_replicate]
  · intro hnan r hr hnossty
    have hvnan : vs = RVal.nan := by
      rw [hvs] at hnan
      exact Option.some_injective _ hnan
    subst hvnan
    have hr' : r ∈ possRows vp (offsetsFor n step) smag rpn ++
        negsRows vg (offsetsFor n step) smag rpn ++
        nossRows RVal.nan (offsetsFor n step) rn :=
      ((List.perm_insertionSort _ _).mem_iff).mp hr
    rcases List.mem_append.mp hr' with hr2 | hr3
    · rcases List.mem_append.mp hr2 with hrp | hrn
      · obtain ⟨td, -, hrep⟩ := List.mem_flatMap.mp hrp
        obtain ⟨-, hre⟩ := List.mem_replicate.mp hrep
        subst hre
        simp [possRows] at hnossty
      · obtain ⟨td, -, hrep⟩ := List.mem_flatMap.mp hrn
        obtain ⟨-, hre⟩ := List.mem_replicate.mp hrep
        subst hre
        simp [negsRows] at hnossty
    · obtain ⟨td, htd, hrep⟩ := List.mem_flatMap.mp hr3
      obtain ⟨-, hre⟩ := List.mem_replicate.mp hrep
      subst hre
      show RVal.scale (if RVal.nan.geZero then 1 else -1) ((RVal.nan.add td.2).abs) = _
      simp [RVal.add, RVal.abs, RVal.scale, RVal.geZero]

/-- Witness for the amended C5 at the concrete NaN map with 7 levels. -/
theorem builder_accepts_nan_pse_witness :
    (makeStimuliFromPse nanPse 1 20 2 3 7).toOption.isSome = true := by
  obtain ⟨l, hl, -, -⟩ := builder_accepts_nan_pse nanPse 1 20 2 3 7 (Or.inr rfl)
    (by simp [nanPse, lookupPse]) (by simp [nanPse, lookupPse])
    (by simp [nanPse, lookupPse])
  rw [hl]
  rfl

/-- One raw MoCS response-log row: the columns `type`, `surr_type`,
`resp.keys` (field `respKeys`) and `center` that `_clean_mocs_df` requires. -/
structure MocsRow where
  type : String
  surr_type : String
  respKeys : String
  center : RVal
deriving DecidableEq, Repr

/-- The valid 7-level offset vocabulary of `_clean_mocs_df`. -/
def validTypes : List String := ["m3", "m2", "m1", "PSE", "p1", "p2", "p3"]

/-- `_clean_mocs_df`: keep rows whose `type` is in the 7-level vocabulary,
then rows whose `resp.keys` is `left` or `right`. -/
def cleanMocs (rows : List MocsRow) : List MocsRow :=
  (rows.filter (fun r => decide (r.type ∈ validTypes))).filter
    (fun r => decide (r.respKeys = "left" ∨ r.respKeys = "right"))

/-- The lumped group of the combined view:
`np.where(surr_type.isin(['poss','negs']), 'with_surround', 'noss')`. -/
def groupOf (r : MocsRow) : String :=
  if r.surr_type = "poss" ∨ r.surr_type = "negs" then "with_surround" else "noss"

/-- Round-half-to-even to the nearest integer (Python's `round`). -/
def roundHalfEven (y : ℚ) : ℤ :=
  if y - (⌊y⌋ : ℚ) < 1/2 then ⌊y⌋
  else if 1/2 < y - (⌊y⌋ : ℚ) then ⌊y⌋ + 1
  else if ⌊y⌋ % 2 = 0 then ⌊y⌋ else ⌊y⌋ + 1

/-- Python's `round(x, 3)`: round-half-to-even at the third decimal. -/
def round3 (q : ℚ) : ℚ :=
  (roundHalfEven (q * 1000) : ℚ) / 1000

/-- `_collect_values_tuple`: drop NaN, deduplicate the raw values in
first-occurrence order (`pd.unique`), sort ascending, then round each
survivor to 3 decimals.  Note the deduplication happens before rounding. -/
def collectValues (xs : List RVal) : List ℚ :=
  ((List.insertionSort (· ≤ ·) (dedupFirst (xs.filterMap RVal.toOpt))).map round3)

/-- One aggregated MoCS output row.  `grp` is the `group` column of the
combined view and the `surr_type` column of the separate view. -/
structure MocsOutRow where
  type : String
  grp : String
  n : ℕ
  n_left : ℕ
  n_right : ℕ
  p_left : ℚ
  p_right : ℚ
  values : List ℚ
deriving DecidableEq, Repr

/-- The `(type, group)` sort order of the output tables:
`sort_values(['group','type'])` — group first, then type, as strings. -/
def keyLe (a b : String × String) : Prop :=
  compare a.2 b.2 = Ordering.lt ∨
    (compare a.2 b.2 = Ordering.eq ∧ (compare a.1 b.1).isLE = true)

instance : DecidableRel keyLe := fun a b => by
  unfold keyLe
  infer_instance

/-- The aggregated entry of the combined view for one `(type, group)` key:
`n_left`/`n_right` from `value_counts` (zero-filled), `n = n_left+n_right`,
proportions guarded against `n = 0`, and the `values` diagnostic. -/
def combRow (d : List MocsRow) (ty gr : String) : MocsOutRow :=
  let g := d.filter (fun r => decide (r.type = ty ∧ groupOf r = gr))
  let nl := (g.filter (fun r => decide (r.respKeys = "left"))).length
  let nr := (g.filter (fun r => decide (r.respKeys = "right"))).length
  { type := ty, grp := gr, n := nl + nr, n_left := nl, n_right := nr
    p_left := (nl : ℚ) / (if 0 < nl + nr then ((nl + nr : ℕ) : ℚ) else 1)
    p_right := (nr : ℚ) / (if 0 < nl + nr then ((nl + nr : ℕ) : ℚ) else 1)
    values := collectValues (g.map (fun r => r.center)) }

/-- The aggregated entry of the separate view for one `(type, surr_type)`
key. -/
def sepRow (d : List MocsRow) (ty st : String) : MocsOutRow :=
  let g := d.filter (fun r => decide (r.type = ty ∧ r.surr_type = st))
  let nl := (g.filter (fun r => decide (r.respKeys = "left"))).length
  let nr := (g.filter (fun r => decide (r.respKeys = "right"))).length
  { type := ty, grp := st, n := nl + nr, n_left := nl, n_right := nr
    p_left := (nl : ℚ) / (if 0 < nl + nr then ((nl + nr : ℕ) : ℚ) else 1)
    p_right := (nr : ℚ) / (if 0 < nl + nr then ((nl + nr : ℕ) : ℚ) else 1)
    values := collectValues (g.map (fun r => r.center)) }

/-- The `(type, group)` keys present in the combined view, sorted by
`(group, type)`. -/
def combKeys (d : List MocsRow) : List (String × String) :=
  List.insertionSort keyLe (dedupFirst (d.map (fun r => (r.type, groupOf r))))

/-- The `(type, surr_type)` keys present in the separate view, sorted by
`(surr_type, type)`. -/
def sepKeys (d : List MocsRow) : List (String × String) :=
  List.insertionSort keyLe (dedupFirst (d.map (fun r => (r.type, r.surr_type))))

/-- `analyze_mocs`, combined view: filter, lump `poss`/`negs` into
`with_surround`, and aggregate per present key. -/
def analyzeMocsCombined (rows : List MocsRow) : List MocsOutRow :=
  let d := cleanMocs rows
  (combKeys d).map (fun p => combRow d p.1 p.2)

/-- `analyze_mocs`, separate view: filter and aggregate per present
`(type, surr_type)` key. -/
def analyzeMocsSeparate (rows : List MocsRow) : List MocsOutRow :=
  let d := cleanMocs rows
  (sepKeys d).map (fun p => sepRow d p.1 p.2)

/-- `analyze_mocs` returns the pair `(combined, separate)`. -/
def analyzeMocs (rows : List MocsRow) : List MocsOutRow × List MocsOutRow :=
  (analyzeMocsCombined rows, analyzeMocsSeparate rows)

/-- Helper: membership in the deduplication accumulator. -/
theorem mem_dedupAux {α : Type} [DecidableEq α] (a : α) :
    ∀ (l seen : List α), a ∈ dedupAux l seen ↔ (a ∈ l ∧ a ∉ seen) := by
  intro l
  induction l with
  | nil => intro seen; simp [dedupAux]
  | cons x xs ih =>
      intro seen
      by_cases hx : x ∈ seen
      · rw [dedupAux, if_pos hx, ih]
        by_cases hax : a = x
        · subst hax
          simp [hx]
        · simp [List.mem_cons, hax]
      · rw [dedupAux, if_neg hx]
        by_cases hax : a = x
        · subst hax
          simp [hx]
        · simp only [List.mem_cons, hax, false_or, ih, List.mem_cons]

/-- Helper: first-occurrence deduplication preserves membership. -/
theorem mem_dedupFirst {α : Type} [DecidableEq α] (a : α) (l : List α) :
    a ∈ dedupFirst l ↔ a ∈ l := by
  rw [dedupFirst, mem_dedupAux]
  simp

/-- Helper: round-half-to-even is monotone. -/
theorem roundHalfEven_mono {y1 y2 : ℚ} (h : y1 ≤ y2) :
    roundHalfEven y1 ≤ roundHalfEven y2 := by
  have hf : ⌊y1⌋ ≤ ⌊y2⌋ := Int.floor_le_floor h
  by_cases heq : ⌊y1⌋ = ⌊y2⌋
  · have hr : y1 - (⌊y2⌋ : ℚ) ≤ y2 - (⌊y2⌋ : ℚ) := by linarith
    unfold roundHalfEven
    rw [heq]
    split_ifs <;> first | omega | linarith
  · have hlt : ⌊y1⌋ < ⌊y2⌋ := lt_of_le_of_ne hf heq
    unfold roundHalfEven
    split_ifs <;> omega

/-- Helper: rounding to three decimals is monotone. -/
theorem round3_mono {q1 q2 : ℚ} (h : q1 ≤ q2) : round3 q1 ≤ round3 q2 := by
  have h1000 : q1 * 1000 ≤ q2 * 1000 := by linarith
  have := roundHalfEven_mono h1000
  have hc : (roundHalfEven (q1 * 1000) : ℚ) ≤ (roundHalfEven (q2 * 1000) : ℚ) :=
    Int.cast_le.mpr this
  unfold round3
  linarith

/-- Helper: the `values` diagnostic is always non-decreasing: the raw
values are sorted before the (monotone) rounding is applied. -/
theorem collectValues_sorted (xs : List RVal) :
    List.Sorted (· ≤ ·) (collectValues xs) := by
  unfold collectValues
  have hs : List.Sorted (· ≤ ·)
      (List.insertionSort (· ≤ ·) (dedupFirst (xs.filterMap RVal.toOpt))) :=
    List.sorted_insertionSort _ _
  exact List.Pairwise.map _ (fun a b hab => round3_mono hab) hs

/-- C6: a MoCS row whose `resp.keys` is not `left`/`right` (e.g. `timeout`),
or whose offset label lies outside the 7-level vocabulary, is excluded by
the aggregator: inserting such a row anywhere in the log leaves both the
combined and the separate output tables — all `n`, `n_left`, `n_right`,
`p_left`, `p_right` and `values` fields — unchanged. -/
theorem mocs_invalid_rows_excluded (pre post : List MocsRow) (r : MocsRow)
    (h : r.type ∉ validTypes ∨ (r.respKeys ≠ "left" ∧ r.respKeys ≠ "right")) :
    analyzeMocs (pre ++ r :: post) = analyzeMocs (pre ++ post) := by
  have hclean : cleanMocs (pre ++ r :: post) = cleanMocs (pre ++ post) := by
    unfold cleanMocs
    rcases h with h | h
    · simp [List.filter_append, List.filter_cons, h]
    · by_cases ht : r.type ∈ validTypes
      · simp [List.filter_append, List.filter_cons, ht, h.1, h.2]
      · simp [List.filter_append, List.filter_cons, ht]
  simp only [analyzeMocs, analyzeMocsCombined, analyzeMocsSeparate, hclean]

/-- A valid MoCS row of the witness log. -/
def mocsGood : MocsRow := ⟨"PSE", "poss", "left", RVal.val 1⟩

/-- A `timeout` row of the witness log, which the aggregator must ignore. -/
def mocsBad : MocsRow := ⟨"PSE", "poss", "timeout", RVal.val 1⟩

/-- Witness for C6: appending a `timeout` row changes nothing. -/
theorem mocs_invalid_rows_excluded_witness :
    analyzeMocs [mocsGood, mocsBad] = analyzeMocs [mocsGood] :=
  mocs_invalid_rows_excluded [mocsGood] [] mocsBad
    (Or.inr ⟨by decide, by decide⟩)

/-- Helper: on a list whose rows all answer `left` or `right`, the two
response counts partition the length. -/
theorem left_right_partition :
    ∀ l : List MocsRow, (∀ x ∈ l, x.respKeys = "left" ∨ x.respKeys = "right") →
      (l.filter (fun r => decide (r.respKeys = "left"))).length +
        (l.filter (fun r => decide (r.respKeys = "right"))).length = l.length := by
  intro l
  induction l with
  | nil => intro _; rfl
  | cons x xs ih =>
      intro h
      have hx := h x (List.mem_cons_self x xs)
      have hrest := ih (fun a ha => h a (List.mem_cons_of_mem x ha))
      rcases hx with hx | hx
      · have hnr : ¬ x.respKeys = "right" := by rw [hx]; decide
        simp only [List.filter_cons]
        simp [hx, hnr]
        omega
      · have hnl : ¬ x.respKeys = "left" := by rw [hx]; decide
        simp only [List.filter_cons]
        simp [hx, hnl]
        omega

/-- C10: in the combined view, a surviving row is lumped into
`with_surround` exactly when its `surr_type` is `poss` or `negs`, and into
`noss` for EVERY other tag — so the combined `noss` bucket counts rows of
unknown tags as well, while the separate view keys such rows under their
own tag.  Concretely: the `noss`-bucket `n` for a type equals the count of
surviving rows of that type whose tag is neither `poss` nor `negs`, and
every surviving row's `(type, lumped group)` / `(type, surr_type)` pairs
appear as keys of the combined / separate tables. -/
theorem mocs_combined_lumping (rows : List MocsRow) :
    (∀ r ∈ cleanMocs rows, groupOf r =
      (if r.surr_type = "poss" ∨ r.surr_type = "negs" then "with_surround" else "noss")) ∧
    (∀ ty : String, (combRow (cleanMocs rows) ty "noss").n =
      ((cleanMocs rows).filter (fun r => decide (r.type = ty ∧ r.surr_type ≠ "poss" ∧
        r.surr_type ≠ "negs"))).length) ∧
    (∀ r ∈ cleanMocs rows,
      (r.type, groupOf r) ∈ (analyzeMocsCombined rows).map (fun o => (o.type, o.grp)) ∧
      (r.type, r.surr_type) ∈ (analyzeMocsSeparate rows).map (fun o => (o.type, o.grp))) := by
  refine ⟨fun r _ => rfl, ?_, ?_⟩
  · intro ty
    have hgroups : (cleanMocs rows).filter
          (fun r => decide (r.type = ty ∧ groupOf r = "noss")) =
        (cleanMocs rows).filter (fun r => decide (r.type = ty ∧ r.surr_type ≠ "poss" ∧
          r.surr_type ≠ "negs")) := by
      apply List.filter_congr
      intro x _
      by_cases hp : x.surr_type = "poss" ∨ x.surr_type = "negs"
      · rcases hp with h | h <;> simp [groupOf, h]
      · push_neg at hp
        simp [groupOf, hp.1, hp.2]
    have hlr : ∀ x ∈ (cleanMocs rows).filter
        (fun r => decide (r.type = ty ∧ groupOf r = "noss")),
        x.respKeys = "left" ∨ x.respKeys = "right" := by
      intro x hx
      have hx' : x ∈ cleanMocs rows := List.mem_of_mem_filter hx
      have := List.of_mem_filter hx'
      simpa using this
    calc (combRow (cleanMocs rows) ty "noss").n
        = (((cleanMocs rows).filter (fun r => decide (r.type = ty ∧ groupOf r = "noss"))).filter
              (fun r => decide (r.respKeys = "left"))).length +
          (((cleanMocs rows).filter (fun r => decide (r.type = ty ∧ groupOf r = "noss"))).filter
              (fun r => decide (r.respKeys = "right"))).length := rfl
      _ = ((cleanMocs rows).filter
              (fun r => decide (r.type = ty ∧ groupOf r = "noss"))).length :=
            left_right_partition _ hlr
      _ = ((cleanMocs rows).filter (fun r => decide (r.type = ty ∧ r.surr_type ≠ "poss" ∧
              r.surr_type ≠ "negs"))).length := by rw [hgroups]
  · intro r hr
    constructor
    · have hkey : (r.type, groupOf r) ∈ combKeys (cleanMocs rows) := by
        rw [combKeys, (List.perm_insertionSort keyLe _).mem_iff, mem_dedupFirst]
        exact List.mem_map_of_mem _ hr
      show (r.type, groupOf r) ∈
        ((combKeys (cleanMocs rows)).map
          (fun p => combRow (cleanMocs rows) p.1 p.2)).map (fun o => (o.type, o.grp))
      exact List.mem_map.mpr ⟨combRow (cleanMocs rows) r.type (groupOf r),
        List.mem_map.mpr ⟨(r.type, groupOf r), hkey, rfl⟩, rfl⟩
    · have hkey : (r.type, r.surr_type) ∈ sepKeys (cleanMocs rows) := by
        rw [sepKeys, (List.perm_insertionSort keyLe _).mem_iff, mem_dedupFirst]
        exact List.mem_map_of_mem _ hr
      show (r.type, r.surr_type) ∈
        ((sepKeys (cleanMocs rows)).map
          (fun p => sepRow (cleanMocs rows) p.1 p.2)).map (fun o => (o.type, o.grp))
      exact List.mem_map.mpr ⟨sepRow (cleanMocs rows) r.type r.surr_type,
        List.mem_map.mpr ⟨(r.type, r.surr_type), hkey, rfl⟩, rfl⟩

/-- A MoCS log with a tag outside `{poss, negs, noss}`. -/
def oddTagRows : List MocsRow := [⟨"PSE", "weird", "left", RVal.val 1⟩]

/-- Witness for C10: the unknown tag `weird` lands in the combined `noss`
bucket while keying its own row of the separate table. -/
theorem mocs_combined_lumping_witness :
    ("PSE", "noss") ∈ (analyzeMocsCombined oddTagRows).map (fun o => (o.type, o.grp)) ∧
    ("PSE", "weird") ∈ (analyzeMocsSeparate oddTagRows).map (fun o => (o.type, o.grp)) := by
  have h := (mocs_combined_lumping oddTagRows).2.2
    ⟨"PSE", "weird", "left", RVal.val 1⟩ (by decide)
  exact h

/-- A MoCS log with two distinct raw centers that coincide after rounding
to three decimals. -/
def dupCenterRows : List MocsRow :=
  [⟨"PSE", "noss", "left", RVal.val (1/10000)⟩,
   ⟨"PSE", "noss", "left", RVal.val (2/10000)⟩]

/-- C9 counterexample: the aggregator deduplicates the RAW centers before
rounding, so two distinct raw values `0.0001` and `0.0002` both survive and
both round to `0`: the attached `values` list is `[0, 0]` — it contains a
duplicate and is not strictly ascending, refuting the claim that the list
is duplicate-free after rounding. -/
theorem mocs_values_duplicates_counterexample :
    (analyzeMocsCombined dupCenterRows).map (fun o => o.values) = [[0, 0]] ∧
    ¬ List.Pairwise (fun a b : ℚ => a < b) [(0 : ℚ), 0] ∧
    ¬ List.Nodup [(0 : ℚ), 0] := by
  refine ⟨?_, by simp, by simp⟩
  have hclean : cleanMocs dupCenterRows = dupCenterRows := by
    simp [cleanMocs, dupCenterRows, validTypes]
  have hkeys : combKeys dupCenterRows = [("PSE", "noss")] := by
    simp [combKeys, dupCenterRows, dedupFirst, dedupAux, groupOf,
      List.insertionSort, List.orderedInsert]
  show ((combKeys (cleanMocs dupCenterRows)).map
      (fun p => combRow (cleanMocs dupCenterRows) p.1 p.2)).map (fun o => o.values) =
      [[0, 0]]
  rw [hclean, hkeys]
  simp only [List.map_cons, List.map_nil]
  have hvals : (combRow dupCenterRows "PSE" "noss").values = [0, 0] := by
    show collectValues ((dupCenterRows.filter
        (fun r => decide (r.type = "PSE" ∧ groupOf r = "noss"))).map
        (fun r => r.center)) = [0, 0]
    have hg : dupCenterRows.filter
        (fun r => decide (r.type = "PSE" ∧ groupOf r = "noss")) = dupCenterRows := by
      simp [dupCenterRows, groupOf]
    rw [hg]
    show collectValues [RVal.val (1/10000), RVal.val (2/10000)] = [0, 0]
    have hsort : List.insertionSort (· ≤ ·)
        (dedupFirst ([RVal.val (1/10000), RVal.val (2/10000)].filterMap RVal.toOpt)) =
        [1/10000, 2/10000] := by
      simp [RVal.toOpt, dedupFirst, dedupAux, List.insertionSort, List.orderedInsert]
      norm_num
    rw [collectValues, hsort]
    simp only [List.map_cons, List.map_nil]
    norm_num [round3, roundHalfEven]
  rw [hvals]

/-- C9 amended: in both the combined and the separate view, `values` is the
non-decreasing list obtained by deduplicating the distinct raw center
values of the group, sorting them, and rounding each to three decimals;
because deduplication precedes rounding, the list need not be strictly
ascending and may retain duplicates after rounding. -/
theorem mocs_values_sorted (rows : List MocsRow) :
    (∀ row ∈ analyzeMocsCombined rows, List.Sorted (· ≤ ·) row.values) ∧
    (∀ row ∈ analyzeMocsSeparate rows, List.Sorted (· ≤ ·) row.values) := by
  constructor
  · intro row hrow
    have hrow' : row ∈ (combKeys (cleanMocs rows)).map
        (fun p => combRow (cleanMocs rows) p.1 p.2) := hrow
    obtain ⟨key, -, hkey⟩ := List.mem_map.mp hrow'
    rw [← hkey]
    exact collectValues_sorted _
  · intro row hrow
    have hrow' : row ∈ (sepKeys (cleanMocs rows)).map
        (fun p => sepRow (cleanMocs rows) p.1 p.2) := hrow
    obtain ⟨key, -, hkey⟩ := List.mem_map.mp hrow'
    rw [← hkey]
    exact collectValues_sorted _

/-- Witness for the amended C9 at the duplicate-producing log. -/
theorem mocs_values_sorted_witness :
    List.Sorted (· ≤ ·) (combRow (cleanMocs dupCenterRows) "PSE" "noss").values := by
  apply (mocs_values_sorted dupCenterRows).1
  show combRow (cleanMocs dupCenterRows) "PSE" "noss" ∈
    (combKeys (cleanMocs dupCenterRows)).map
      (fun p => combRow (cleanMocs dupCenterRows) p.1 p.2)
  have hclean : cleanMocs dupCenterRows = dupCenterRows := by
    simp [cleanMocs, dupCenterRows, validTypes]
  have hkeys : combKeys dupCenterRows = [("PSE", "noss")] := by
    simp [combKeys, dupCenterRows, dedupFirst, dedupAux, groupOf,
      List.insertionSort, List.orderedInsert]
  rw [hclean, hkeys]
  simp

/-- `_logistic2(x, x0, s)`: the 2-parameter logistic with lower asymptote 0
and upper asymptote 1. -/
noncomputable def logistic2 (x x0 s : ℝ) : ℝ :=
  1 / (1 + Real.exp (-(x - x0) / s))

/-- `_logistic4(x, x0, s, gamma, lam)`: guess rate `gamma` and lapse rate
`lam` applied to the logistic base curve. -/
noncomputable def logistic4 (x x0 s gamma lam : ℝ) : ℝ :=
  gamma + (1 - gamma - lam) * (1 / (1 + Real.exp (-(x - x0) / s)))

/-- C7: for every real `x`, `x0`, `s`, evaluating the four-parameter
logistic with `gamma = 0` and `lambda = 0` gives exactly the two-parameter
logistic prediction. -/
theorem logistic4_reduces_to_logistic2 (x x0 s : ℝ) :
    logistic4 x x0 s 0 0 = logistic2 x x0 s := by
  unfold logistic4 logistic2
  ring

/-- `np.clip` on a scalar (for `lo ≤ hi`). -/
noncomputable def clip (x lo hi : ℝ) : ℝ := max lo (min x hi)

/-- The `inv_logit` closure of the logistic2 branch of
`fit_psychometric_logistic`: clip `p` away from 0 and 1, then invert the
fitted curve analytically, `x0 + s * ln(p / (1 - p))`. -/
noncomputable def invLogit2 (x0 s p : ℝ) : ℝ :=
  x0 + s * Real.log (clip p (1e-6) (1 - 1e-6) / (1 - clip p (1e-6) (1 - 1e-6)))

/-- The `(threshold_p50, threshold_p60, threshold_p70)` triple the
logistic2 branch attaches to its result; the optimizer's fitted parameter
vector is abstracted as the pair `(x0, s)`. -/
noncomputable def thresholds2 (x0 s : ℝ) : ℝ × ℝ × ℝ :=
  (invLogit2 x0 s 0.5, invLogit2 x0 s 0.6, invLogit2 x0 s 0.7)

/-- C8: whatever parameter vector the optimizer returns, the reported
thresholds satisfy `threshold_p = x0 + s * ln(p / (1 - p))` for
`p ∈ {0.50, 0.60, 0.70}` — the clipping of `p` away from 0/1 leaves these
three values unchanged — and in particular `threshold_p50 = x0` exactly. -/
theorem fit_logistic2_thresholds (x0 s : ℝ) :
    (thresholds2 x0 s).1 = x0 + s * Real.log (0.5 / (1 - 0.5)) ∧
    (thresholds2 x0 s).2.1 = x0 + s * Real.log (0.6 / (1 - 0.6)) ∧
    (thresholds2 x0 s).2.2 = x0 + s * Real.log (0.7 / (1 - 0.7)) ∧
    (thresholds2 x0 s).1 = x0 := by
  have hclip : ∀ p : ℝ, 1e-6 ≤ p → p ≤ 1 - 1e-6 → clip p (1e-6) (1 - 1e-6) = p := by
    intro p h1 h2
    unfold clip
    rw [min_eq_left h2, max_eq_right h1]
  have h5 : clip 0.5 (1e-6) (1 - 1e-6) = 0.5 := hclip _ (by norm_num) (by norm_num)
  have h6 : clip 0.6 (1e-6) (1 - 1e-6) = 0.6 := hclip _ (by norm_num) (by norm_num)
  have h7 : clip 0.7 (1e-6) (1 - 1e-6) = 0.7 := hclip _ (by norm_num) (by norm_num)
  refine ⟨?_, ?_, ?_, ?_⟩
  · show invLogit2 x0 s 0.5 = _
    unfold invLogit2
    rw [h5]
  · show invLogit2 x0 s 0.6 = _
    unfold invLogit2
    rw [h6]
  · show invLogit2 x0 s 0.7 = _
    unfold invLogit2
    rw [h7]
  · show invLogit2 x0 s 0.5 = x0
    unfold invLogit2
    rw [h5]
    norm_num
